import Mathlib

/-!
Shallow embedding of `src/getListIterator.ts` from the `ts-utils` repository.

The iterator closure's mutable state (`nextIndex`, the debounce timer) together
with its observable environment (the scope it queries, the log of `onSwitch`
invocations, and a discrete clock) is modelled as an explicit state record.
Scope queries may reject; a rejecting query is an `Except.error`.  The model
commits to the interleaving of a scope that resolves synchronously: each
operation's asynchronous after-phase completes (its microtask runs) before the
next caller action or timer expiry, which matches the JavaScript event loop,
where promise continuations run before timer callbacks.

The two small primitives `delayed` and `beforeCall` are imported by
`getListIterator.ts` but their source files are not part of this tree; they
are modelled from the specification (see the doc comments below).
-/

namespace TsUtils

/-- Decidable equality for `Except`, needed so concrete runs of the model can
be settled by `decide`. -/
instance {ε α : Type} [DecidableEq ε] [DecidableEq α] : DecidableEq (Except ε α) :=
  fun a b =>
    match a, b with
    | Except.ok x, Except.ok y =>
        if h : x = y then Decidable.isTrue (by rw [h])
        else Decidable.isFalse (by intro c; cases c; exact h rfl)
    | Except.error x, Except.error y =>
        if h : x = y then Decidable.isTrue (by rw [h])
        else Decidable.isFalse (by intro c; cases c; exact h rfl)
    | Except.ok _, Except.error _ => Decidable.isFalse (by intro c; cases c)
    | Except.error _, Except.ok _ => Decidable.isFalse (by intro c; cases c)

/-- The external scope capability (`ListScope` in the source): a pair of
queries, each of which either resolves to a number or rejects.  The error
payload is irrelevant and modelled as `Unit`. -/
structure ListScope where
  getSize : Except Unit Int
  getCurrentIndex : Except Unit Int
deriving DecidableEq, Repr

/-- Options record (`ListIteratorOptions` in the source): optional delay in
milliseconds and optional loop flag. -/
structure ListIteratorOptions where
  delay : Option Nat
  loop : Option Bool
deriving DecidableEq, Repr

/-- `NextOptions` is an alias of `ListIteratorOptions` in the source. -/
abbrev NextOptions := ListIteratorOptions

/-- Translation of `getNextItem` from `getListIterator.ts`: queries size and
current index (a rejection of either rejects the whole computation, as with
`Promise.all`) and computes the forward candidate.  `loop` is
`boolean | undefined` in the source; the truthiness test `loop ? 0 : -1`
succeeds exactly when `loop = some true`. -/
def getNextItem (scope : ListScope) (loop : Option Bool) : Except Unit Int := do
  let size ← scope.getSize
  let currentIndex ← scope.getCurrentIndex
  pure (if currentIndex = size - 1 then if loop = some true then 0 else -1
        else min (currentIndex + 1) (size - 1))

/-- Translation of `getPrevItem` from `getListIterator.ts`: the backward
candidate. -/
def getPrevItem (scope : ListScope) (loop : Option Bool) : Except Unit Int := do
  let size ← scope.getSize
  let currentIndex ← scope.getCurrentIndex
  pure (if currentIndex = 0 then if loop = some true then size - 1 else -1
        else min (currentIndex - 1) (size - 1))

/-- Translation of `isCanNext` from `getListIterator.ts`.  Note that the
implementation takes no options and calls `getNextItem()` with `loop`
left `undefined`. -/
def isCanNext (scope : ListScope) : Except Unit Bool := do
  let v ← getNextItem scope none
  pure (decide (0 ≤ v))

/-- Translation of `isCanBack` from `getListIterator.ts`: likewise always
calls `getPrevItem()` with `loop` left `undefined`. -/
def isCanBack (scope : ListScope) : Except Unit Bool := do
  let v ← getPrevItem scope none
  pure (decide (0 ≤ v))

/-- Modelled from the spec: the `delayed` primitive (its source file is not in
this tree).  Per the spec it "schedules a callback to run after a configurable
delay, cancellable and re-delayable before it fires" and exposes
schedule/re-delay, cancel, and an is-pending flag; re-delaying replaces the
previous wait rather than stacking.  The handle is modelled as the optional
absolute deadline of the single pending firing; the callback itself
(`onSwitch(nextIndex)` in the source) is run by the clock model below when the
deadline passes. -/
structure Delayed where
  deadline : Option Nat
deriving DecidableEq, Repr

/-- Modelled from the spec: (re)schedule the delayed firing `ms` milliseconds
from the current time, replacing any previous wait. -/
def Delayed.delayBy (t : Delayed) (now ms : Nat) : Delayed :=
  { t with deadline := some (now + ms) }

/-- Modelled from the spec: cancel the pending firing without running the
callback. -/
def Delayed.cancelTimer (t : Delayed) : Delayed :=
  { t with deadline := none }

/-- Modelled from the spec: true while a firing is scheduled but has not yet
run. -/
def Delayed.isPending (t : Delayed) : Bool :=
  t.deadline.isSome

/-- Modelled from the spec: the `beforeCall` primitive (its source file is not
in this tree).  Per the spec it wraps an asynchronous operation so that a
synchronous before side-effect runs immediately before the asynchronous body
begins, and the overall call returns the body's result. -/
def beforeCall {α σ ρ : Type} (before : α → σ → σ) (body : α → σ → σ × ρ) :
    α → σ → σ × ρ :=
  fun a s => body a (before a s)

/-- The full observable state of one iterator handle together with its
environment: the closure variable `nextIndex`, the `delayedNext` timer, the
current time, the scope (externally owned, so it can change between calls),
and the ordered log of arguments passed to `onSwitch`. -/
structure IterState where
  nextIndex : Int
  timer : Delayed
  now : Nat
  scope : ListScope
  log : List Int
deriving DecidableEq, Repr

/-- Initial state of a freshly constructed iterator (`let nextIndex = -1`,
no pending timer) over a given scope at time zero. -/
def initState (sc : ListScope) : IterState :=
  { nextIndex := -1, timer := { deadline := none }, now := 0, scope := sc, log := [] }

/-- The effective delay of a `next` call: the source destructures
`({ delay = options?.delay } = {})` and then uses `delay ?? 0`. -/
def effDelay (opts : Option ListIteratorOptions) (args : Option NextOptions) : Nat :=
  (((args.bind fun a => a.delay)).orElse (fun _ => opts.bind fun o => o.delay)).getD 0

/-- The effective loop option of a `next` call: the source destructures
`({ loop = options?.loop } = {})`. -/
def effLoop (opts : Option ListIteratorOptions) (args : Option NextOptions) : Option Bool :=
  ((args.bind fun a => a.loop)).orElse (fun _ => opts.bind fun o => o.loop)

/-- Before-phase of `next` from the source:
`nextIndex >= 0 && delayedNext.delay(delay ?? 0)`. -/
def nextBefore (opts : Option ListIteratorOptions) (args : Option NextOptions)
    (s : IterState) : IterState :=
  if 0 ≤ s.nextIndex then
    { s with timer := s.timer.delayBy s.now (effDelay opts args) }
  else s

/-- After-phase of `next` from the source:
`nextIndex = await getNextItem(loop)`; a rejection leaves `nextIndex`
unchanged and surfaces as a failed result. -/
def nextAfter (opts : Option ListIteratorOptions) (args : Option NextOptions)
    (s : IterState) : IterState × Except Unit Unit :=
  match getNextItem s.scope (effLoop opts args) with
  | Except.ok v => ({ s with nextIndex := v }, Except.ok ())
  | Except.error e => (s, Except.error e)

/-- `next` from the source: `beforeCall` of the two phases above.  `opts` is
the constructor-default options captured by the closure. -/
def next (opts : Option ListIteratorOptions) : Option NextOptions →
    IterState → IterState × Except Unit Unit :=
  beforeCall (nextBefore opts) (nextAfter opts)

/-- Translation of `cancel` from the source: `delayedNext.cancel()`. -/
def cancel (s : IterState) : IterState :=
  { s with timer := s.timer.cancelTimer }

/-- Before-phase of `back` from the source:
`nextIndex >= 0 && onSwitch(nextIndex)` — the callback is invoked
synchronously, immediately. -/
def backBefore (_a : Unit) (s : IterState) : IterState :=
  if 0 ≤ s.nextIndex then { s with log := s.log ++ [s.nextIndex] } else s

/-- After-phase of `back` from the source:
`cancel(); nextIndex = await getPrevItem()` (loop left `undefined`). -/
def backAfter (_a : Unit) (s : IterState) : IterState × Except Unit Unit :=
  let s1 := cancel s
  match getPrevItem s1.scope none with
  | Except.ok v => ({ s1 with nextIndex := v }, Except.ok ())
  | Except.error e => (s1, Except.error e)

/-- `back` from the source: `beforeCall` of the two phases above. -/
def back : Unit → IterState → IterState × Except Unit Unit :=
  beforeCall backBefore backAfter

/-- Modelled from the spec: firing of the `delayed` timer.  The callback
passed to `delayed` in the source is `() => { onSwitch(nextIndex) }`, reading
`nextIndex` at fire time; after firing, the timer is no longer pending. -/
def fireTimer (s : IterState) : IterState :=
  { s with log := s.log ++ [s.nextIndex], timer := s.timer.cancelTimer }

/-- Modelled from the spec: the passage of `n` milliseconds.  The single
pending timer fires if its deadline falls within the elapsed window. -/
def advance (n : Nat) (s : IterState) : IterState :=
  let s1 := { s with now := s.now + n }
  match s.timer.deadline with
  | some t => if t ≤ s1.now then fireTimer s1 else s1
  | none => s1

/-- One caller-visible action on the iterator: a `next(args)` call, a `back()`
call, a `cancel()` call, the passage of time, or an external change of the
scope's state by its owner. -/
inductive Event where
  | enext (args : Option NextOptions)
  | eback
  | ecancel
  | elapse (n : Nat)
  | setScope (sc : ListScope)
deriving DecidableEq, Repr

/-- Interpretation of one event against the state. -/
def step (opts : Option ListIteratorOptions) (s : IterState) : Event → IterState
  | Event.enext args => (next opts args s).1
  | Event.eback => (back () s).1
  | Event.ecancel => cancel s
  | Event.elapse n => advance n s
  | Event.setScope sc => { s with scope := sc }

/-- Run of a sequence of events from a state. -/
def runScript (opts : Option ListIteratorOptions) (s : IterState)
    (script : List Event) : IterState :=
  script.foldl (step opts) s

/-- Events a caller of the handle can produce directly (`next`/`back`/
`cancel` calls and the passage of time); excludes external scope mutation. -/
def isUserEvent : Event → Bool
  | Event.setScope _ => false
  | _ => true

/-- One call of a burst of rapid `next()` calls: the time elapsed since the
previous call of the burst, the scope state the call observes, and the call's
options. -/
structure BurstCall where
  gap : Nat
  scope : ListScope
  args : Option NextOptions
deriving DecidableEq, Repr

/-- The events of one burst call. -/
def burstEvents (c : BurstCall) : List Event :=
  [Event.elapse c.gap, Event.setScope c.scope, Event.enext c.args]

/-- The event script of a whole burst. -/
def burstScript (calls : List BurstCall) : List Event :=
  calls.foldr (fun c acc => burstEvents c ++ acc) []

/-- Run of a burst of `next()` calls from a state. -/
def runBurst (opts : Option ListIteratorOptions) (s : IterState)
    (calls : List BurstCall) : IterState :=
  runScript opts s (burstScript calls)

/-- Total time spanned by a list of burst calls. -/
def gapSum (calls : List BurstCall) : Nat :=
  (calls.map BurstCall.gap).sum

/-- The last call of the burst `c0 :: rest`. -/
def lastBurstCall (c0 : BurstCall) : List BurstCall → BurstCall
  | [] => c0
  | c :: rest => lastBurstCall c rest

/-- The forward candidate a burst call computes and stores, with `-1` (the
"no valid move" sentinel) standing in for a rejected query; under the
hypothesis that the call's scope resolves, this is exactly the value of
`getNextItem` for the scope state the call observes. -/
def burstCandidate (opts : Option ListIteratorOptions) (c : BurstCall) : Int :=
  match getNextItem c.scope (effLoop opts c.args) with
  | Except.ok v => v
  | Except.error _ => -1

/-- True when a scope query result resolved rather than rejected. -/
def isResolved (r : Except Unit Int) : Bool :=
  match r with
  | Except.ok _ => true
  | Except.error _ => false

/-- A scope that always reports size 0 and current index 0. -/
def zeroScope : ListScope :=
  { getSize := Except.ok 0, getCurrentIndex := Except.ok 0 }

/-- A scope that always reports size 1 and current index 0. -/
def oneScope : ListScope :=
  { getSize := Except.ok 1, getCurrentIndex := Except.ok 0 }

/-- A scope that always reports size 2 and current index 1. -/
def twoOneScope : ListScope :=
  { getSize := Except.ok 2, getCurrentIndex := Except.ok 1 }

/-- A scope that reports size 3 and the given current index. -/
def threeScope (c : Int) : ListScope :=
  { getSize := Except.ok 3, getCurrentIndex := Except.ok c }

/-- A scope whose size query rejects. -/
def failSizeScope : ListScope :=
  { getSize := Except.error (), getCurrentIndex := Except.ok 0 }

/-- Constructor options with a 10 ms delay and no loop flag. -/
def delayTenOpts : Option ListIteratorOptions :=
  some { delay := some 10, loop := none }

/-- Constructor options with a 5 ms delay and `loop: true`. -/
def loopOpts : Option ListIteratorOptions :=
  some { delay := some 5, loop := some true }

/-- Constructor options with a 5 ms delay and `loop: false`. -/
def noLoopOpts : Option ListIteratorOptions :=
  some { delay := some 5, loop := some false }

/-- The end-to-end scenario of the spec's §8 example, as the code actually
runs it: three `next()` calls on a size-3 scope starting at index 0 with
`loop=false` and `delay=10`, waiting out the delay after each call, the
owner moving the cursor to each committed index. -/
def exampleScript : List Event :=
  [Event.enext none, Event.elapse 20,
   Event.enext none, Event.elapse 20, Event.setScope (threeScope 1),
   Event.enext none, Event.elapse 20, Event.setScope (threeScope 2)]

/-- A state used as a generic starting point for witnesses: pending target 1,
no live timer, over the size-3 scope at index 0. -/
def readyState : IterState :=
  { nextIndex := 1, timer := { deadline := none }, now := 0,
    scope := threeScope 0, log := [] }

/-- A state whose scope's size query rejects, with a pending target. -/
def failState : IterState :=
  { nextIndex := 2, timer := { deadline := none }, now := 0,
    scope := failSizeScope, log := [] }

/-- A state with a live timer and a valid pending target, over the size-2
scope at index 1. -/
def pendingState : IterState :=
  { nextIndex := 1, timer := { deadline := some 7 }, now := 3,
    scope := twoOneScope, log := [] }

/-- A burst call with no gap, over the size-3 scope at index 0, default
options. -/
def burstA : BurstCall :=
  { gap := 0, scope := threeScope 0, args := none }

/-- A burst call 5 ms after the previous one, over the size-3 scope at
index 0, default options. -/
def burstB : BurstCall :=
  { gap := 5, scope := threeScope 0, args := none }

end TsUtils

namespace TsUtils

/-- Passing time over a state with no pending timer never invokes the switch
callback. -/
lemma advance_log_no_timer (m : Nat) (s : IterState) (h : s.timer.deadline = none) :
    (advance m s).log = s.log := by
  simp [advance, h]

/-- A rejection of either scope query rejects `getNextItem`, as with
`Promise.all`. -/
lemma getNextItem_error (sc : ListScope) (l : Option Bool)
    (h : sc.getSize = Except.error () ∨ sc.getCurrentIndex = Except.error ()) :
    getNextItem sc l = Except.error () := by
  rcases h with h | h
  · simp [getNextItem, h, bind, Except.bind]
  · cases hs : sc.getSize with
    | error e => cases e; simp [getNextItem, hs, bind, Except.bind]
    | ok n => simp [getNextItem, hs, h, bind, Except.bind]

/-- A rejection of either scope query rejects `getPrevItem`. -/
lemma getPrevItem_error (sc : ListScope) (l : Option Bool)
    (h : sc.getSize = Except.error () ∨ sc.getCurrentIndex = Except.error ()) :
    getPrevItem sc l = Except.error () := by
  rcases h with h | h
  · simp [getPrevItem, h, bind, Except.bind]
  · cases hs : sc.getSize with
    | error e => cases e; simp [getPrevItem, hs, bind, Except.bind]
    | ok n => simp [getPrevItem, hs, h, bind, Except.bind]

/-- On the empty scope the forward candidate is `-1` for every loop option. -/
lemma getNextItem_zeroScope (l : Option Bool) :
    getNextItem zeroScope l = Except.ok (-1) := by
  cases l with
  | none => rfl
  | some b => cases b <;> rfl

/-- On the empty scope the backward candidate is `-1` for every loop option. -/
lemma getPrevItem_zeroScope (l : Option Bool) :
    getPrevItem zeroScope l = Except.ok (-1) := by
  cases l with
  | none => rfl
  | some b => cases b <;> rfl

/-- Over the empty scope, any script of `next`/`back`/`cancel`/time events
keeps the iterator inert: the pending target stays negative, no timer is ever
scheduled, and the switch-callback log never grows. -/
lemma zeroScope_run_invariant (opts : Option ListIteratorOptions) :
    ∀ (script : List Event), (∀ e ∈ script, isUserEvent e = true) →
    ∀ s : IterState, s.scope = zeroScope → s.nextIndex < 0 →
      s.timer.deadline = none →
      (runScript opts s script).scope = zeroScope ∧
      (runScript opts s script).nextIndex < 0 ∧
      (runScript opts s script).timer.deadline = none ∧
      (runScript opts s script).log = s.log := by
  intro script
  induction script with
  | nil => intro _ s h1 h2 h3; exact ⟨h1, h2, h3, rfl⟩
  | cons e rest ih =>
    intro h s h1 h2 h3
    have he : isUserEvent e = true := h e (List.mem_cons_self _ _)
    have hrest : ∀ x ∈ rest, isUserEvent x = true :=
      fun x hx => h x (List.mem_cons_of_mem _ hx)
    have hstep : (step opts s e).scope = zeroScope ∧ (step opts s e).nextIndex < 0 ∧
        (step opts s e).timer.deadline = none ∧ (step opts s e).log = s.log := by
      cases e with
      | enext args =>
          have hnb : nextBefore opts args s = s := by
            simp [nextBefore, not_le.mpr h2]
          refine ⟨?_, ?_, ?_, ?_⟩ <;>
            simp [step, next, beforeCall, hnb, nextAfter, h1, getNextItem_zeroScope, h3]
      | eback =>
          have hbb : backBefore () s = s := by
            simp [backBefore, not_le.mpr h2]
          refine ⟨?_, ?_, ?_, ?_⟩ <;>
            simp [step, back, beforeCall, hbb, backAfter, cancel, Delayed.cancelTimer,
                  h1, getPrevItem_zeroScope]
      | ecancel => exact ⟨h1, h2, rfl, rfl⟩
      | elapse n =>
          refine ⟨?_, ?_, ?_, ?_⟩ <;> simp [step, advance, h1, h2, h3]
      | setScope sc => simp [isUserEvent] at he
    have hr := ih hrest (step opts s e) hstep.1 hstep.2.1 hstep.2.2.1
    refine ⟨hr.1, hr.2.1, hr.2.2.1, ?_⟩
    rw [runScript] at hr ⊢
    rw [List.foldl_cons, hr.2.2.2]
    exact hstep.2.2.2

/-- Unfolding of `gapSum` over a cons. -/
lemma gapSum_cons (c : BurstCall) (l : List BurstCall) :
    gapSum (c :: l) = c.gap + gapSum l := by
  simp [gapSum]

/-- A resolved query result is an `ok` value. -/
lemma isResolved_ok (r : Except Unit Int) (h : isResolved r = true) :
    ∃ v, r = Except.ok v := by
  cases r with
  | ok v => exact ⟨v, rfl⟩
  | error e => simp [isResolved] at h

/-- A burst decomposes into its first call followed by the remaining burst. -/
lemma runBurst_cons (opts : Option ListIteratorOptions) (s : IterState)
    (c : BurstCall) (l : List BurstCall) :
    runBurst opts s (c :: l) = runBurst opts (runScript opts s (burstEvents c)) l := by
  simp [runBurst, burstScript, runScript, List.foldl_append]

/-- Effect of one `next(args)` call: the before-phase (re)starts the timer
exactly when the stored pending target is valid, and the after-phase always
overwrites the pending target with the freshly computed candidate. -/
lemma step_enext_eq (opts : Option ListIteratorOptions) (c : BurstCall)
    (s2 : IterState) (v : Int) (hs2 : s2.scope = c.scope)
    (hv : getNextItem c.scope (effLoop opts c.args) = Except.ok v) :
    step opts s2 (Event.enext c.args) =
      { s2 with nextIndex := v,
                timer := if 0 ≤ s2.nextIndex
                         then { deadline := some (s2.now + effDelay opts c.args) }
                         else s2.timer } := by
  by_cases h0 : 0 ≤ s2.nextIndex <;>
    simp [step, next, beforeCall, nextBefore, nextAfter, Delayed.delayBy, h0, hs2, hv]

/-- Effect of one burst call when a timer is already pending and does not come
due during the call's gap. -/
lemma burst_events_run (opts : Option ListIteratorOptions) (c : BurstCall)
    (s : IterState) (T : Nat) (v : Int)
    (hT : s.timer.deadline = some T)
    (hnofire : ¬ T ≤ s.now + c.gap)
    (hv : getNextItem c.scope (effLoop opts c.args) = Except.ok v) :
    runScript opts s (burstEvents c) =
      { nextIndex := v,
        timer := if 0 ≤ s.nextIndex
                 then { deadline := some (s.now + c.gap + effDelay opts c.args) }
                 else s.timer,
        now := s.now + c.gap,
        scope := c.scope,
        log := s.log } := by
  have e1 : step opts s (Event.elapse c.gap) = { s with now := s.now + c.gap } := by
    simp [step, advance, hT, hnofire]
  have hrs : runScript opts s (burstEvents c) =
      step opts (step opts (step opts s (Event.elapse c.gap))
        (Event.setScope c.scope)) (Event.enext c.args) := rfl
  rw [hrs, e1]
  have e2 : step opts { s with now := s.now + c.gap } (Event.setScope c.scope) =
      { s with now := s.now + c.gap, scope := c.scope } := rfl
  rw [e2, step_enext_eq opts c _ v rfl hv]

/-- Effect of one burst call when no timer is pending. -/
lemma burst_events_run_idle (opts : Option ListIteratorOptions) (c : BurstCall)
    (s : IterState) (v : Int)
    (hT : s.timer.deadline = none)
    (hv : getNextItem c.scope (effLoop opts c.args) = Except.ok v) :
    runScript opts s (burstEvents c) =
      { nextIndex := v,
        timer := if 0 ≤ s.nextIndex
                 then { deadline := some (s.now + c.gap + effDelay opts c.args) }
                 else s.timer,
        now := s.now + c.gap,
        scope := c.scope,
        log := s.log } := by
  have e1 : step opts s (Event.elapse c.gap) = { s with now := s.now + c.gap } := by
    simp [step, advance, hT]
  have hrs : runScript opts s (burstEvents c) =
      step opts (step opts (step opts s (Event.elapse c.gap))
        (Event.setScope c.scope)) (Event.enext c.args) := rfl
  rw [hrs, e1]
  have e2 : step opts { s with now := s.now + c.gap } (Event.setScope c.scope) =
      { s with now := s.now + c.gap, scope := c.scope } := rfl
  rw [e2, step_enext_eq opts c _ v rfl hv]

/-- Passing enough time for the pending deadline fires the delayed callback
once, with the pending target read at fire time. -/
lemma advance_fires (m : Nat) (s : IterState) (T : Nat)
    (hT : s.timer.deadline = some T) (hdue : T ≤ s.now + m) :
    advance m s = { s with now := s.now + m, log := s.log ++ [s.nextIndex],
                           timer := { deadline := none } } := by
  simp [advance, hT, hdue, fireTimer, Delayed.cancelTimer]

/-- Invariant of a burst tail: while every call happens before the live
deadline, no firing occurs, the deadline stays live and within one delay of
the current time, and the stored pending target is the candidate computed by
the most recent call. -/
lemma burst_run_invariant (opts : Option ListIteratorOptions) (d : Nat) :
    ∀ (calls : List BurstCall) (s : IterState) (T : Nat) (c0 : BurstCall),
      s.timer.deadline = some T →
      s.now + gapSum calls < T →
      T ≤ s.now + d →
      (∀ c ∈ calls, isResolved (getNextItem c.scope (effLoop opts c.args)) = true) →
      (∀ c ∈ calls, effDelay opts c.args = d) →
      Except.ok s.nextIndex =
        getNextItem c0.scope (effLoop opts c0.args) →
      (runBurst opts s calls).log = s.log ∧
      (∃ T2, (runBurst opts s calls).timer.deadline = some T2 ∧
        (runBurst opts s calls).now < T2 ∧
        T2 ≤ (runBurst opts s calls).now + d) ∧
      Except.ok (runBurst opts s calls).nextIndex =
        getNextItem (lastBurstCall c0 calls).scope
          (effLoop opts (lastBurstCall c0 calls).args) := by
  intro calls
  induction calls with
  | nil =>
    intro s T c0 hT hsum hTd _ _ hcand
    refine ⟨rfl, ⟨T, hT, ?_, ?_⟩, hcand⟩
    · have : s.now + gapSum [] < T := hsum
      simpa [gapSum] using this
    · simpa using hTd
  | cons c rest ih =>
    intro s T c0 hT hsum hTd hres hdel hcand
    have hsum' : s.now + (c.gap + gapSum rest) < T := by
      simpa [gapSum_cons] using hsum
    have hnofire : ¬ T ≤ s.now + c.gap := by omega
    obtain ⟨v, hv⟩ := isResolved_ok _ (hres c (List.mem_cons_self _ _))
    have hde : effDelay opts c.args = d := hdel c (List.mem_cons_self _ _)
    have hrun := burst_events_run opts c s T v hT hnofire hv
    rw [runBurst_cons, hrun]
    have hres' : ∀ x ∈ rest, isResolved (getNextItem x.scope (effLoop opts x.args)) = true :=
      fun x hx => hres x (List.mem_cons_of_mem _ hx)
    have hdel' : ∀ x ∈ rest, effDelay opts x.args = d :=
      fun x hx => hdel x (List.mem_cons_of_mem _ hx)
    by_cases h0 : 0 ≤ s.nextIndex
    · have hrec := ih { nextIndex := v,
                        timer := { deadline := some (s.now + c.gap + effDelay opts c.args) },
                        now := s.now + c.gap, scope := c.scope, log := s.log }
        (s.now + c.gap + d) c (by simp [hde]) (by simp; omega) (by simp [hde])
        hres' hdel' hv.symm
      simpa [h0, lastBurstCall] using hrec
    · have hrec := ih { nextIndex := v, timer := s.timer,
                        now := s.now + c.gap, scope := c.scope, log := s.log }
        T c (by simp [hT]) (by simp; omega) (by simp; omega)
        hres' hdel' hv.symm
      simpa [h0, lastBurstCall] using hrec

/-- A resolving burst call's stored value is its `burstCandidate`. -/
lemma burstCandidate_eq (opts : Option ListIteratorOptions) (c : BurstCall) (v : Int)
    (hv : getNextItem c.scope (effLoop opts c.args) = Except.ok v) :
    burstCandidate opts c = v := by
  simp [burstCandidate, hv]

/-- Invariant of a whole burst started with no live timer: as long as some
call of the burst observes a valid stored target in its before-phase (the
target is valid at the start, or some call before the last computes a valid
candidate), the burst fires nothing itself, ends with a live deadline within
one delay of the last call, and stores the last call's candidate. -/
lemma burst_idle_invariant (opts : Option ListIteratorOptions) (d : Nat) :
    ∀ (rest : List BurstCall) (c0 : BurstCall) (s : IterState),
      s.timer.deadline = none →
      gapSum rest < d →
      (∀ c ∈ c0 :: rest, isResolved (getNextItem c.scope (effLoop opts c.args)) = true) →
      (∀ c ∈ c0 :: rest, effDelay opts c.args = d) →
      (0 ≤ s.nextIndex ∨ ∃ x ∈ (c0 :: rest).dropLast, 0 ≤ burstCandidate opts x) →
      (runBurst opts s (c0 :: rest)).log = s.log ∧
      (∃ T2, (runBurst opts s (c0 :: rest)).timer.deadline = some T2 ∧
        (runBurst opts s (c0 :: rest)).now < T2 ∧
        T2 ≤ (runBurst opts s (c0 :: rest)).now + d) ∧
      Except.ok (runBurst opts s (c0 :: rest)).nextIndex =
        getNextItem (lastBurstCall c0 rest).scope
          (effLoop opts (lastBurstCall c0 rest).args) := by
  intro rest
  induction rest with
  | nil =>
    intro c0 s ht hwin hres hdel hvalid
    have h0 : 0 ≤ s.nextIndex := by
      rcases hvalid with h0 | ⟨x, hx, _⟩
      · exact h0
      · simp [List.dropLast] at hx
    obtain ⟨v0, hv0⟩ := isResolved_ok _ (hres c0 (List.mem_cons_self _ _))
    have hde0 : effDelay opts c0.args = d := hdel c0 (List.mem_cons_self _ _)
    have hd0 : 0 < d := by simpa [gapSum] using hwin
    have hrun0 := burst_events_run_idle opts c0 s v0 ht hv0
    have hrb : runBurst opts s [c0] = runScript opts s (burstEvents c0) := by
      rw [runBurst_cons]; rfl
    rw [hrb, hrun0]
    refine ⟨by simp, ⟨s.now + c0.gap + d, ?_, ?_, ?_⟩, ?_⟩
    · simp [h0, hde0]
    · simp; omega
    · simp
    · simpa [lastBurstCall] using hv0.symm
  | cons c1 rs ih =>
    intro c0 s ht hwin hres hdel hvalid
    obtain ⟨v0, hv0⟩ := isResolved_ok _ (hres c0 (List.mem_cons_self _ _))
    have hde0 : effDelay opts c0.args = d := hdel c0 (List.mem_cons_self _ _)
    have hrun0 := burst_events_run_idle opts c0 s v0 ht hv0
    have hres' : ∀ c ∈ c1 :: rs, isResolved (getNextItem c.scope (effLoop opts c.args)) = true :=
      fun c hc => hres c (List.mem_cons_of_mem _ hc)
    have hdel' : ∀ c ∈ c1 :: rs, effDelay opts c.args = d :=
      fun c hc => hdel c (List.mem_cons_of_mem _ hc)
    have hwin' : gapSum (c1 :: rs) < d := hwin
    rw [runBurst_cons, hrun0]
    by_cases h0 : 0 ≤ s.nextIndex
    · have hrec := burst_run_invariant opts d (c1 :: rs)
        { nextIndex := v0, timer := { deadline := some (s.now + c0.gap + effDelay opts c0.args) },
          now := s.now + c0.gap, scope := c0.scope, log := s.log }
        (s.now + c0.gap + d) c0
        (by simp [hde0]) (by simp; omega) (by simp)
        hres' hdel' hv0.symm
      simpa [h0, lastBurstCall] using hrec
    · have hvalid' : 0 ≤ v0 ∨ ∃ x ∈ (c1 :: rs).dropLast, 0 ≤ burstCandidate opts x := by
        rcases hvalid with hl | ⟨x, hx, hxv⟩
        · exact absurd hl h0
        · have hx' : x = c0 ∨ x ∈ (c1 :: rs).dropLast := by
            have : (c0 :: c1 :: rs).dropLast = c0 :: (c1 :: rs).dropLast := rfl
            rw [this] at hx
            exact List.mem_cons.mp hx
          rcases hx' with rfl | hx'
          · exact Or.inl (by rw [burstCandidate_eq opts x v0 hv0] at hxv; exact hxv)
          · exact Or.inr ⟨x, hx', hxv⟩
      have hwrs : gapSum rs < d := by
        have := gapSum_cons c1 rs
        omega
      have hrec := ih c1
        { nextIndex := v0, timer := s.timer,
          now := s.now + c0.gap, scope := c0.scope, log := s.log }
        (by simp [ht]) hwrs hres' hdel' (by simpa using hvalid')
      simpa [h0, lastBurstCall] using hrec

end TsUtils

namespace TsUtils

/-- C1: the claim states that `onSwitch` is never invoked with the `-1`
sentinel or any negative index.  The code violates it: over a static scope of
size 2 at index 1 with `delay=10`, calling `back()` (which stores the backward
candidate 0) and then `next()` (whose before-phase restarts the timer off the
stale valid target while its after-phase overwrites the stored target with the
computed forward candidate `-1`) makes the delayed transition fire
`onSwitch(-1)` once the delay elapses. -/
theorem c1_delayed_fire_negative :
    (runScript delayTenOpts (initState twoOneScope)
      [Event.eback, Event.enext none, Event.elapse 20]).log = [-1] := by
  decide

/-- C2 (amended): provided some call of the burst observes a valid
(non-negative) stored pending target in its before-phase — the target is
valid at the start of the burst, or some call before the last computes a
valid candidate — and the scope queries resolve, a burst of rapid `next()`
calls whose calls all fall within a window smaller than the effective delay
produces no invocation during the burst and exactly one switch-callback
invocation once the delay elapses after the last call, with the index equal
to the candidate computed from the scope state current as of the last call of
the burst; no further firing follows.  (The unamended claim fails exactly
when no call of the burst sees a valid stored target, e.g. a lone first call
on a fresh iterator.) -/
theorem c2_burst_debounce (opts : Option ListIteratorOptions) (d : Nat)
    (c0 : BurstCall) (rest : List BurstCall) (s : IterState)
    (ht : s.timer.deadline = none)
    (hres : ∀ c ∈ c0 :: rest, isResolved (getNextItem c.scope (effLoop opts c.args)) = true)
    (hdel : ∀ c ∈ c0 :: rest, effDelay opts c.args = d)
    (hwin : gapSum rest < d)
    (hvalid : 0 ≤ s.nextIndex ∨ ∃ x ∈ (c0 :: rest).dropLast, 0 ≤ burstCandidate opts x) :
    (runBurst opts s (c0 :: rest)).log = s.log ∧
    (advance d (runBurst opts s (c0 :: rest))).log =
      s.log ++ [(runBurst opts s (c0 :: rest)).nextIndex] ∧
    (advance d (runBurst opts s (c0 :: rest))).timer.deadline = none ∧
    Except.ok (runBurst opts s (c0 :: rest)).nextIndex =
      getNextItem (lastBurstCall c0 rest).scope
        (effLoop opts (lastBurstCall c0 rest).args) ∧
    (∀ m, (advance m (advance d (runBurst opts s (c0 :: rest)))).log =
      s.log ++ [(runBurst opts s (c0 :: rest)).nextIndex]) := by
  obtain ⟨hlog, ⟨T2, hT2, hlt, hle⟩, hlast⟩ :=
    burst_idle_invariant opts d rest c0 s ht hwin hres hdel hvalid
  have hfire := advance_fires d _ T2 hT2 (by omega)
  refine ⟨hlog, ?_, ?_, hlast, ?_⟩
  · rw [hfire]; simp [hlog]
  · rw [hfire]
  · intro m
    rw [hfire]
    rw [advance_log_no_timer m _ rfl]
    simp [hlog]

/-- C2 witness: a two-call burst 5 ms apart with a 10 ms delay on a freshly
constructed iterator over the size-3 scope at index 0 — the stored target is
invalid at the start, but the second call sees the first call's candidate —
fires exactly one callback with the last call's candidate. -/
theorem c2_burst_debounce_witness :
    (runBurst delayTenOpts (initState (threeScope 0)) [burstA, burstB]).log =
      (initState (threeScope 0)).log ∧
    (advance 10 (runBurst delayTenOpts (initState (threeScope 0)) [burstA, burstB])).log =
      (initState (threeScope 0)).log ++
        [(runBurst delayTenOpts (initState (threeScope 0)) [burstA, burstB]).nextIndex] ∧
    (advance 10 (runBurst delayTenOpts (initState (threeScope 0))
      [burstA, burstB])).timer.deadline = none ∧
    Except.ok (runBurst delayTenOpts (initState (threeScope 0)) [burstA, burstB]).nextIndex =
      getNextItem (lastBurstCall burstA [burstB]).scope
        (effLoop delayTenOpts (lastBurstCall burstA [burstB]).args) ∧
    (∀ m, (advance m (advance 10 (runBurst delayTenOpts (initState (threeScope 0))
        [burstA, burstB]))).log =
      (initState (threeScope 0)).log ++
        [(runBurst delayTenOpts (initState (threeScope 0)) [burstA, burstB]).nextIndex]) :=
  c2_burst_debounce delayTenOpts 10 burstA [burstB] (initState (threeScope 0)) rfl
    (by decide) (by decide) (by decide) (by decide)

/-- C2 counterexample: a burst consisting of a single `next()` call on a
freshly constructed iterator (within a window of 0 ms, smaller than the 10 ms
delay) produces zero switch-callback invocations even after 100 ms, not
exactly one. -/
theorem c2_single_call_burst_no_invocation :
    (advance 100 (runBurst delayTenOpts (initState (threeScope 0)) [burstA])).log = [] := by
  decide

/-- C3 counterexample: on a freshly constructed iterator over the size-3
scope at index 0 with `loop=false` and `delay=10`, the first `next()` call
stores candidate 1 but fires nothing: `onSwitch(1)` has not fired even
1000 ms later, contradicting the claimed end-to-end example. -/
theorem c3_first_next_never_fires :
    (runScript delayTenOpts (initState (threeScope 0))
      [Event.enext none, Event.elapse 1000]).log = [] ∧
    (runScript delayTenOpts (initState (threeScope 0))
      [Event.enext none, Event.elapse 1000]).nextIndex = 1 := by
  decide

/-- C3 (amended): over the size-3 scope at index 0 with `loop=false` and
`delay=10`, the first `next()` only stores candidate 1 and schedules nothing;
the second `next()` makes `onSwitch(1)` fire once after the delay, the third
makes `onSwitch(2)` fire (the owner moving the cursor to each committed
index), and with the cursor then at the last element `isCanNext()` resolves
`false`. -/
theorem c3_amended_trace :
    (runScript delayTenOpts (initState (threeScope 0)) exampleScript).log = [1, 2] ∧
    isCanNext (threeScope 2) = Except.ok false := by
  decide

/-- C4: for every scope with resolved size and current index, the forward
candidate is 0 when at the last element and looping, -1 when at the last
element and not looping, and `min(currentIndex + 1, size - 1)` otherwise; the
backward candidate is `size - 1` when at the first element and looping, -1
when at the first element and not looping, and
`min(currentIndex - 1, size - 1)` otherwise. -/
theorem c4_candidate_formula (sc : ListScope) (n c : Int) (loop : Bool)
    (hs : sc.getSize = Except.ok n) (hc : sc.getCurrentIndex = Except.ok c) :
    getNextItem sc (some loop) =
      Except.ok (if c = n - 1 then (if loop then 0 else -1) else min (c + 1) (n - 1)) ∧
    getPrevItem sc (some loop) =
      Except.ok (if c = 0 then (if loop then n - 1 else -1) else min (c - 1) (n - 1)) := by
  cases loop <;>
    simp [getNextItem, getPrevItem, hs, hc, bind, Except.bind, pure, Except.pure]

/-- C4 witness: the formula evaluated on the size-3 scope at index 0 without
looping. -/
theorem c4_candidate_formula_witness :
    getNextItem (threeScope 0) (some false) =
      Except.ok (if (0 : Int) = 3 - 1 then (if false then 0 else -1)
                 else min ((0 : Int) + 1) (3 - 1)) ∧
    getPrevItem (threeScope 0) (some false) =
      Except.ok (if (0 : Int) = 0 then (if false then (3 : Int) - 1 else -1)
                 else min ((0 : Int) - 1) (3 - 1)) :=
  c4_candidate_formula (threeScope 0) 3 0 false rfl rfl

/-- C5 counterexample: with the cursor at the last element of a size-3 scope,
the forward candidate under the loop option is 0 (a valid index), yet
`isCanNext()` resolves `false`: the implementation ignores the loop option,
contradicting the claim that the effective loop option is honoured. -/
theorem c5_loop_option_ignored :
    getNextItem (threeScope 2) (some true) = Except.ok 0 ∧
    isCanNext (threeScope 2) = Except.ok false := by
  decide

/-- C5 (amended): `isCanNext` ignores both the per-call and the constructor
loop options and always uses non-looping semantics: for every scope with
resolved size and current index it resolves `true` exactly when the
non-looping forward candidate is non-negative. -/
theorem c5_isCanNext_nonlooping (sc : ListScope) (n c : Int)
    (hs : sc.getSize = Except.ok n) (hc : sc.getCurrentIndex = Except.ok c) :
    isCanNext sc =
      Except.ok (decide (0 ≤ (if c = n - 1 then (-1 : Int) else min (c + 1) (n - 1)))) := by
  simp [isCanNext, getNextItem, hs, hc, bind, Except.bind, pure, Except.pure]

/-- C5 witness: on the size-3 scope at index 0 the non-looping candidate is 1,
so `isCanNext` resolves `true`. -/
theorem c5_isCanNext_nonlooping_witness :
    isCanNext (threeScope 0) =
      Except.ok (decide (0 ≤ (if (0 : Int) = 3 - 1 then (-1 : Int)
                              else min ((0 : Int) + 1) (3 - 1)))) :=
  c5_isCanNext_nonlooping (threeScope 0) 3 0 rfl rfl

/-- C6: for every state whose scope resolves, `back()` succeeds; its
before-phase immediately (without any passage of time) invokes `onSwitch`
with the stored pending target exactly when that target is valid; the call
cancels any pending forward timer, which therefore never additionally fires;
and the backward candidate recomputed with non-looping semantics becomes the
new stored pending target. -/
theorem c6_back_behavior (s : IterState) (p : Int)
    (h : getPrevItem s.scope none = Except.ok p) :
    (back () s).2 = Except.ok () ∧
    (back () s).1.log = (if 0 ≤ s.nextIndex then s.log ++ [s.nextIndex] else s.log) ∧
    (back () s).1.timer.deadline = none ∧
    (back () s).1.nextIndex = p ∧
    (back () s).1.now = s.now ∧
    (∀ m, (advance m (back () s).1).log = (back () s).1.log) := by
  by_cases h0 : 0 ≤ s.nextIndex <;>
    simp [back, beforeCall, backBefore, backAfter, cancel, Delayed.cancelTimer, h0, h, advance]

/-- C6 witness: `back()` on a state with pending target 1, a live timer and
the size-2 scope at index 1 fires `onSwitch(1)` immediately, cancels the
timer and stores the backward candidate 0. -/
theorem c6_back_behavior_witness :
    (back () pendingState).2 = Except.ok () ∧
    (back () pendingState).1.log =
      (if 0 ≤ pendingState.nextIndex then pendingState.log ++ [pendingState.nextIndex]
       else pendingState.log) ∧
    (back () pendingState).1.timer.deadline = none ∧
    (back () pendingState).1.nextIndex = 0 ∧
    (back () pendingState).1.now = pendingState.now ∧
    (∀ m, (advance m (back () pendingState).1).log = (back () pendingState).1.log) :=
  c6_back_behavior pendingState 0 (by decide)

/-- C7: whenever either scope query rejects, `next()`, `back()`,
`isCanNext()` and `isCanBack()` each return a failed asynchronous result (the
failure is not swallowed), and the stored pending-target index is left at its
prior value. -/
theorem c7_scope_failure_propagates (opts : Option ListIteratorOptions)
    (args : Option NextOptions) (s : IterState)
    (h : s.scope.getSize = Except.error () ∨ s.scope.getCurrentIndex = Except.error ()) :
    (next opts args s).2 = Except.error () ∧
    (next opts args s).1.nextIndex = s.nextIndex ∧
    (back () s).2 = Except.error () ∧
    (back () s).1.nextIndex = s.nextIndex ∧
    isCanNext s.scope = Except.error () ∧
    isCanBack s.scope = Except.error () := by
  have hn : ∀ l, getNextItem s.scope l = Except.error () :=
    fun l => getNextItem_error s.scope l h
  have hp : ∀ l, getPrevItem s.scope l = Except.error () :=
    fun l => getPrevItem_error s.scope l h
  by_cases h0 : 0 ≤ s.nextIndex <;>
    simp [next, beforeCall, nextBefore, nextAfter, back, backBefore, backAfter, cancel,
          isCanNext, isCanBack, h0, hn, hp, bind, Except.bind]

/-- C7 witness: on a state whose size query rejects, all four operations fail
and the pending target 2 is preserved. -/
theorem c7_scope_failure_propagates_witness :
    (next none none failState).2 = Except.error () ∧
    (next none none failState).1.nextIndex = failState.nextIndex ∧
    (back () failState).2 = Except.error () ∧
    (back () failState).1.nextIndex = failState.nextIndex ∧
    isCanNext failState.scope = Except.error () ∧
    isCanBack failState.scope = Except.error () :=
  c7_scope_failure_propagates none none failState (Or.inl rfl)

/-- C8: `cancel()` clears the pending delay timer without invoking the switch
callback — no invocation ever results from the cancelled schedule — and
leaves the stored pending-target index unchanged, so a subsequent `next()`
call (here, when the stored target is valid) schedules a new transition. -/
theorem c8_cancel_behavior (opts : Option ListIteratorOptions)
    (args : Option NextOptions) (s : IterState) (h0 : 0 ≤ s.nextIndex) :
    (cancel s).log = s.log ∧
    (cancel s).nextIndex = s.nextIndex ∧
    (cancel s).timer.deadline = none ∧
    (∀ m, (advance m (cancel s)).log = s.log) ∧
    ((next opts args (cancel s)).1).timer.deadline =
      some (s.now + effDelay opts args) := by
  refine ⟨rfl, rfl, rfl, fun m => ?_, ?_⟩
  · simp [advance, cancel, Delayed.cancelTimer]
  · simp [next, beforeCall, nextBefore, nextAfter, cancel, Delayed.cancelTimer,
          Delayed.delayBy, h0]
    split <;> rfl

/-- C8 witness: cancelling the live timer of `pendingState` fires nothing,
keeps pending target 1, and a subsequent `next()` schedules a fresh 10 ms
deadline. -/
theorem c8_cancel_behavior_witness :
    (cancel pendingState).log = pendingState.log ∧
    (cancel pendingState).nextIndex = pendingState.nextIndex ∧
    (cancel pendingState).timer.deadline = none ∧
    (∀ m, (advance m (cancel pendingState)).log = pendingState.log) ∧
    ((next delayTenOpts none (cancel pendingState)).1).timer.deadline =
      some (pendingState.now + effDelay delayTenOpts none) :=
  c8_cancel_behavior delayTenOpts none pendingState (by decide)

/-- C9: on a scope reporting size 0 and current index 0, the candidate index
is -1 in both directions for every loop option, both capability queries
resolve `false`, and no script of `next`/`back`/`cancel`/time events over
that scope ever schedules a transition or invokes `onSwitch`. -/
theorem c9_empty_scope_inert (opts : Option ListIteratorOptions) (loop : Option Bool)
    (script : List Event) (h : ∀ e ∈ script, isUserEvent e = true) :
    getNextItem zeroScope loop = Except.ok (-1) ∧
    getPrevItem zeroScope loop = Except.ok (-1) ∧
    isCanNext zeroScope = Except.ok false ∧
    isCanBack zeroScope = Except.ok false ∧
    (runScript opts (initState zeroScope) script).log = [] ∧
    (runScript opts (initState zeroScope) script).timer.deadline = none := by
  have hinv := zeroScope_run_invariant opts script h (initState zeroScope) rfl
    (by decide) rfl
  exact ⟨getNextItem_zeroScope loop, getPrevItem_zeroScope loop, by decide, by decide,
         hinv.2.2.2, hinv.2.2.1⟩

/-- C9 witness: a concrete `next`/`back`/time script over the empty scope
invokes nothing and leaves no timer pending. -/
theorem c9_empty_scope_inert_witness :
    getNextItem zeroScope none = Except.ok (-1) ∧
    getPrevItem zeroScope none = Except.ok (-1) ∧
    isCanNext zeroScope = Except.ok false ∧
    isCanBack zeroScope = Except.ok false ∧
    (runScript none (initState zeroScope)
      [Event.enext none, Event.eback, Event.elapse 5]).log = [] ∧
    (runScript none (initState zeroScope)
      [Event.enext none, Event.eback, Event.elapse 5]).timer.deadline = none :=
  c9_empty_scope_inert none none [Event.enext none, Event.eback, Event.elapse 5]
    (by decide)

/-- C10: on a scope reporting size 1 and current index 0, the forward
candidate is 0 (the index the cursor is already at) when the effective loop
option is true, and -1 when it is false or absent; a committed forward
transition under the loop option invokes `onSwitch(0)` (a self-move), and
without looping no move is ever committed. -/
theorem c10_singleton_loop_selfmove :
    getNextItem oneScope (some true) = Except.ok 0 ∧
    getNextItem oneScope (some false) = Except.ok (-1) ∧
    getNextItem oneScope none = Except.ok (-1) ∧
    (runScript loopOpts (initState oneScope)
      [Event.enext none, Event.enext none, Event.elapse 10]).log = [0] ∧
    (runScript noLoopOpts (initState oneScope)
      [Event.enext none, Event.enext none, Event.elapse 10]).log = [] := by
  decide

end TsUtils
